import Mathlib

/-!
Verification of the packaging pipeline of hangouts-chat-linux
(src/build/buildMain.js and src/build/buildApp.js), a nativefier-based
Electron packager.

The JavaScript code is shallowly embedded: JS values are modelled by the
inductive `JValue` (with `vUndefined` and `vFunc` so that JSON
serialization behaviour is observable), objects by association lists,
and the asynchronous `async.waterfall` control flow of `buildMain` by a
deterministic function `buildMainRun` parameterized by the outcomes of
the external collaborators (options inference, staging copy, icon
build, electron-packager, icon copy).  Error values delivered by
rejected promises are modelled as truthy (in the program they are
`Error` objects or non-empty strings).
-/

namespace BuildSpec

/-- Model of a JavaScript value as far as this program observes it:
`undefined` and functions are distinguished because
`JSON.parse(JSON.stringify(x))` drops them. -/
inductive JValue where
  | vUndefined : JValue
  | vNull : JValue
  | vBool : Bool → JValue
  | vNum : Int → JValue
  | vStr : String → JValue
  | vArr : List JValue → JValue
  | vObj : List (String × JValue) → JValue
  | vFunc : Nat → JValue
deriving Repr

mutual
/-- Decidable equality on `JValue` (the automatic derivation does not
handle the nested lists). -/
def decEqJ : (a b : JValue) → Decidable (a = b)
  | .vUndefined, .vUndefined => isTrue rfl
  | .vUndefined, .vNull => isFalse (fun h => JValue.noConfusion h)
  | .vUndefined, .vBool _ => isFalse (fun h => JValue.noConfusion h)
  | .vUndefined, .vNum _ => isFalse (fun h => JValue.noConfusion h)
  | .vUndefined, .vStr _ => isFalse (fun h => JValue.noConfusion h)
  | .vUndefined, .vArr _ => isFalse (fun h => JValue.noConfusion h)
  | .vUndefined, .vObj _ => isFalse (fun h => JValue.noConfusion h)
  | .vUndefined, .vFunc _ => isFalse (fun h => JValue.noConfusion h)
  | .vNull, .vUndefined => isFalse (fun h => JValue.noConfusion h)
  | .vNull, .vNull => isTrue rfl
  | .vNull, .vBool _ => isFalse (fun h => JValue.noConfusion h)
  | .vNull, .vNum _ => isFalse (fun h => JValue.noConfusion h)
  | .vNull, .vStr _ => isFalse (fun h => JValue.noConfusion h)
  | .vNull, .vArr _ => isFalse (fun h => JValue.noConfusion h)
  | .vNull, .vObj _ => isFalse (fun h => JValue.noConfusion h)
  | .vNull, .vFunc _ => isFalse (fun h => JValue.noConfusion h)
  | .vBool _, .vUndefined => isFalse (fun h => JValue.noConfusion h)
  | .vBool _, .vNull => isFalse (fun h => JValue.noConfusion h)
  | .vBool a, .vBool b =>
    if h : a = b then isTrue (by rw [h]) else
      isFalse (fun hh => h (JValue.vBool.inj hh))
  | .vBool _, .vNum _ => isFalse (fun h => JValue.noConfusion h)
  | .vBool _, .vStr _ => isFalse (fun h => JValue.noConfusion h)
  | .vBool _, .vArr _ => isFalse (fun h => JValue.noConfusion h)
  | .vBool _, .vObj _ => isFalse (fun h => JValue.noConfusion h)
  | .vBool _, .vFunc _ => isFalse (fun h => JValue.noConfusion h)
  | .vNum _, .vUndefined => isFalse (fun h => JValue.noConfusion h)
  | .vNum _, .vNull => isFalse (fun h => JValue.noConfusion h)
  | .vNum _, .vBool _ => isFalse (fun h => JValue.noConfusion h)
  | .vNum a, .vNum b =>
    if h : a = b then isTrue (by rw [h]) else
      isFalse (fun hh => h (JValue.vNum.inj hh))
  | .vNum _, .vStr _ => isFalse (fun h => JValue.noConfusion h)
  | .vNum _, .vArr _ => isFalse (fun h => JValue.noConfusion h)
  | .vNum _, .vObj _ => isFalse (fun h => JValue.noConfusion h)
  | .vNum _, .vFunc _ => isFalse (fun h => JValue.noConfusion h)
  | .vStr _, .vUndefined => isFalse (fun h => JValue.noConfusion h)
  | .vStr _, .vNull => isFalse (fun h => JValue.noConfusion h)
  | .vStr _, .vBool _ => isFalse (fun h => JValue.noConfusion h)
  | .vStr _, .vNum _ => isFalse (fun h => JValue.noConfusion h)
  | .vStr a, .vStr b =>
    if h : a = b then isTrue (by rw [h]) else
      isFalse (fun hh => h (JValue.vStr.inj hh))
  | .vStr _, .vArr _ => isFalse (fun h => JValue.noConfusion h)
  | .vStr _, .vObj _ => isFalse (fun h => JValue.noConfusion h)
  | .vStr _, .vFunc _ => isFalse (fun h => JValue.noConfusion h)
  | .vArr _, .vUndefined => isFalse (fun h => JValue.noConfusion h)
  | .vArr _, .vNull => isFalse (fun h => JValue.noConfusion h)
  | .vArr _, .vBool _ => isFalse (fun h => JValue.noConfusion h)
  | .vArr _, .vNum _ => isFalse (fun h => JValue.noConfusion h)
  | .vArr _, .vStr _ => isFalse (fun h => JValue.noConfusion h)
  | .vArr a, .vArr b =>
    match decEqJArr a b with
    | isTrue h => isTrue (by rw [h])
    | isFalse h => isFalse (fun hh => h (JValue.vArr.inj hh))
  | .vArr _, .vObj _ => isFalse (fun h => JValue.noConfusion h)
  | .vArr _, .vFunc _ => isFalse (fun h => JValue.noConfusion h)
  | .vObj _, .vUndefined => isFalse (fun h => JValue.noConfusion h)
  | .vObj _, .vNull => isFalse (fun h => JValue.noConfusion h)
  | .vObj _, .vBool _ => isFalse (fun h => JValue.noConfusion h)
  | .vObj _, .vNum _ => isFalse (fun h => JValue.noConfusion h)
  | .vObj _, .vStr _ => isFalse (fun h => JValue.noConfusion h)
  | .vObj _, .vArr _ => isFalse (fun h => JValue.noConfusion h)
  | .vObj a, .vObj b =>
    match decEqJObj a b with
    | isTrue h => isTrue (by rw [h])
    | isFalse h => isFalse (fun hh => h (JValue.vObj.inj hh))
  | .vObj _, .vFunc _ => isFalse (fun h => JValue.noConfusion h)
  | .vFunc _, .vUndefined => isFalse (fun h => JValue.noConfusion h)
  | .vFunc _, .vNull => isFalse (fun h => JValue.noConfusion h)
  | .vFunc _, .vBool _ => isFalse (fun h => JValue.noConfusion h)
  | .vFunc _, .vNum _ => isFalse (fun h => JValue.noConfusion h)
  | .vFunc _, .vStr _ => isFalse (fun h => JValue.noConfusion h)
  | .vFunc _, .vArr _ => isFalse (fun h => JValue.noConfusion h)
  | .vFunc _, .vObj _ => isFalse (fun h => JValue.noConfusion h)
  | .vFunc a, .vFunc b =>
    if h : a = b then isTrue (by rw [h]) else
      isFalse (fun hh => h (JValue.vFunc.inj hh))

def decEqJArr : (a b : List JValue) → Decidable (a = b)
  | [], [] => isTrue rfl
  | [], _ :: _ => isFalse (fun h => List.noConfusion h)
  | _ :: _, [] => isFalse (fun h => List.noConfusion h)
  | x :: xs, y :: ys =>
    match decEqJ x y, decEqJArr xs ys with
    | isTrue h1, isTrue h2 => isTrue (by rw [h1, h2])
    | isFalse h1, _ => isFalse (fun hh => h1 (List.cons.inj hh).1)
    | _, isFalse h2 => isFalse (fun hh => h2 (List.cons.inj hh).2)

def decEqJObj : (a b : List (String × JValue)) → Decidable (a = b)
  | [], [] => isTrue rfl
  | [], _ :: _ => isFalse (fun h => List.noConfusion h)
  | _ :: _, [] => isFalse (fun h => List.noConfusion h)
  | (k, v) :: xs, (k', v') :: ys =>
    if hk : k = k' then
      match decEqJ v v', decEqJObj xs ys with
      | isTrue h1, isTrue h2 => isTrue (by rw [hk, h1, h2])
      | isFalse h1, _ =>
        isFalse (fun hh => h1 (congrArg Prod.snd (List.cons.inj hh).1))
      | _, isFalse h2 => isFalse (fun hh => h2 (List.cons.inj hh).2)
    else
      isFalse (fun hh => hk (congrArg Prod.fst (List.cons.inj hh).1))
end

instance : DecidableEq JValue := decEqJ

/-- A JavaScript object: an association list of fields (JS objects have
no duplicate keys; first occurrence is the binding consulted). -/
abbrev JObj := List (String × JValue)

/-- Property read `o[k]`, `none` when the key is absent. -/
def getField : JObj → String → Option JValue
  | [], _ => none
  | (k', v) :: rest, k => if k' = k then some v else getField rest k

/-- Property read with JS semantics: a missing property reads as `undefined`. -/
def getFieldD (o : JObj) (k : String) : JValue :=
  (getField o k).getD JValue.vUndefined

/-- Property write `o[k] = v`: replaces the binding in place, or appends
a new one (JS property insertion order). -/
def setField : JObj → String → JValue → JObj
  | [], k, v => [(k, v)]
  | (k', v') :: rest, k, v =>
    if k' = k then (k, v) :: rest else (k', v') :: setField rest k v

/-- JS truthiness of a value. -/
def jsTruthy : JValue → Bool
  | .vUndefined => false
  | .vNull => false
  | .vBool b => b
  | .vNum n => n != 0
  | .vStr s => s != ""
  | .vArr _ => true
  | .vObj _ => true
  | .vFunc _ => true

mutual
/-- Model of `JSON.parse(JSON.stringify(v))`: `none` when `JSON.stringify`
yields `undefined` (for `undefined` and functions). -/
def roundTripVal : JValue → Option JValue
  | .vUndefined => none
  | .vFunc _ => none
  | .vNull => some .vNull
  | .vBool b => some (.vBool b)
  | .vNum n => some (.vNum n)
  | .vStr s => some (.vStr s)
  | .vArr es => some (.vArr (roundTripArr es))
  | .vObj fs => some (.vObj (roundTripObj fs))

/-- In arrays, non-serializable elements become `null`. -/
def roundTripArr : List JValue → List JValue
  | [] => []
  | e :: rest => ((roundTripVal e).getD .vNull) :: roundTripArr rest

/-- In objects, non-serializable fields are dropped. -/
def roundTripObj : List (String × JValue) → List (String × JValue)
  | [] => []
  | (k, v) :: rest =>
    match roundTripVal v with
    | none => roundTripObj rest
    | some v' => (k, v') :: roundTripObj rest
end

mutual
/-- A value survives a JSON round trip unchanged iff it contains no
`undefined` and no function anywhere. -/
def serialVal : JValue → Bool
  | .vUndefined => false
  | .vFunc _ => false
  | .vNull => true
  | .vBool _ => true
  | .vNum _ => true
  | .vStr _ => true
  | .vArr es => serialArr es
  | .vObj fs => serialObj fs

def serialArr : List JValue → Bool
  | [] => true
  | e :: rest => serialVal e && serialArr rest

def serialObj : List (String × JValue) → Bool
  | [] => true
  | (_, v) :: rest => serialVal v && serialObj rest
end

/-- Host environment consulted by the capability guards:
`helpers.isWindows()` and `hasBinary.sync('wine')`. -/
structure Env where
  isWindows : Bool
  hasWine : Bool
deriving Repr, DecidableEq

/-- Warning logged by `maybeNoIconOption`. -/
def wineWarnIcon : String :=
  "Wine is required to set the icon for a Windows app when packaging on non-windows platforms"

/-- Warning logged by `removeInvalidOptions` for a given parameter. -/
def wineWarn (param : String) : String :=
  "Wine is required to use \"" ++ param ++ "\" option for a Windows app when packaging on non-windows platforms"

/-- Function `maybeNoIconOption` (buildMain.js:45-56): JSON round-trip copy, then
null out `icon` when targeting win32 off-Windows without wine.  Returns
the new object together with the warnings logged. -/
def maybeNoIconOption (env : Env) (options : JObj) : JObj × List String :=
  let packageOptions := roundTripObj options
  if getFieldD options "platform" == JValue.vStr "win32" && !env.isWindows then
    if !env.hasWine then
      (setField packageOptions "icon" .vNull, [wineWarnIcon])
    else (packageOptions, [])
  else (packageOptions, [])

/-- Function `removeInvalidOptions` (buildMain.js:90-101): JSON round-trip copy,
then null out `param` when targeting win32 off-Windows without wine. -/
def removeInvalidOptions (env : Env) (options : JObj) (param : String) : JObj × List String :=
  let packageOptions := roundTripObj options
  if getFieldD options "platform" == JValue.vStr "win32" && !env.isWindows then
    if !env.hasWine then
      (setField packageOptions param .vNull, [wineWarn param])
    else (packageOptions, [])
  else (packageOptions, [])

/-- Function `maybeNoAppCopyrightOption` (buildMain.js:108-110). -/
def maybeNoAppCopyrightOption (env : Env) (options : JObj) : JObj × List String :=
  removeInvalidOptions env options "appCopyright"

/-- Function `maybeNoBuildVersionOption` (buildMain.js:117-119). -/
def maybeNoBuildVersionOption (env : Env) (options : JObj) : JObj × List String :=
  removeInvalidOptions env options "buildVersion"

/-- Function `maybeNoAppVersionOption` (buildMain.js:126-128). -/
def maybeNoAppVersionOption (env : Env) (options : JObj) : JObj × List String :=
  removeInvalidOptions env options "appVersion"

/-- Function `maybeNoVersionStringOption` (buildMain.js:135-137). -/
def maybeNoVersionStringOption (env : Env) (options : JObj) : JObj × List String :=
  removeInvalidOptions env options "versionString"

/-- Function `maybeNoWin32metadataOption` (buildMain.js:144-146). -/
def maybeNoWin32metadataOption (env : Env) (options : JObj) : JObj × List String :=
  removeInvalidOptions env options "win32metadata"

/-- The guard chain of the packaging stage (buildMain.js:209-215), with
the warnings logged along the way, in logging order. -/
def sanitizeForPackager (env : Env) (opts : JObj) : JObj × List String :=
  let s1 := maybeNoIconOption env opts
  let s2 := maybeNoAppCopyrightOption env s1.1
  let s3 := maybeNoAppVersionOption env s2.1
  let s4 := maybeNoBuildVersionOption env s3.1
  let s5 := maybeNoVersionStringOption env s4.1
  let s6 := maybeNoWin32metadataOption env s5.1
  (s6.1, s1.2 ++ s2.2 ++ s3.2 ++ s4.2 ++ s5.2 ++ s6.2)

/-! ## Heap view of the capability guards

JavaScript objects are mutable references.  To state that the guards
never mutate the caller's object, we give a second view of the same two
source functions over an explicit store: cells are objects, a reference
is an index.  `JSON.parse(JSON.stringify(options))` allocates a fresh
cell holding the round-tripped copy; the subsequent assignment
(`packageOptions.icon = null` / `packageOptions[param] = null`) writes
into that fresh cell only. -/

/-- The object store: cell `r` holds the object referenced by `r`. -/
abbrev Store := List JObj

/-- Function `maybeNoIconOption` over the store: allocate the JSON round-trip
copy, then conditionally assign `icon = null` on the fresh cell.
Returns (new store, reference to the returned object, warnings). -/
def maybeNoIconOptionS (env : Env) (st : Store) (r : Nat) : Store × Nat × List String :=
  let options := st.getD r []
  let st1 := st ++ [roundTripObj options]
  let r1 := st.length
  if getFieldD options "platform" == JValue.vStr "win32" && !env.isWindows then
    if !env.hasWine then
      (st1.set r1 (setField (st1.getD r1 []) "icon" .vNull), r1, [wineWarnIcon])
    else (st1, r1, [])
  else (st1, r1, [])

/-- Function `removeInvalidOptions` over the store, same shape. -/
def removeInvalidOptionsS (env : Env) (st : Store) (r : Nat) (param : String) :
    Store × Nat × List String :=
  let options := st.getD r []
  let st1 := st ++ [roundTripObj options]
  let r1 := st.length
  if getFieldD options "platform" == JValue.vStr "win32" && !env.isWindows then
    if !env.hasWine then
      (st1.set r1 (setField (st1.getD r1 []) param .vNull), r1, [wineWarn param])
    else (st1, r1, [])
  else (st1, r1, [])

/-! ## buildApp.js -/

/-- The fixed allow-list of `selectAppArgs` (buildApp.js:13-62), in
source order. -/
def appArgFields : List String :=
  ["name", "targetUrl", "counter", "bounce", "width", "height",
   "minWidth", "minHeight", "maxWidth", "maxHeight", "x", "y",
   "showMenuBar", "fastQuit", "userAgent", "nativefierVersion",
   "ignoreCertificate", "disableGpu", "ignoreGpuBlacklist",
   "enableEs3Apis", "insecure", "flashPluginDir", "diskCacheSize",
   "fullScreen", "hideWindowFrame", "maximize", "disableContextMenu",
   "disableDevTools", "zoom", "internalUrls", "crashReporter",
   "singleInstance", "clearCache", "appCopyright", "appVersion",
   "buildVersion", "win32metadata", "versionString", "processEnvs",
   "fileDownloadOptions", "tray", "basicAuthUsername",
   "basicAuthPassword", "alwaysOnTop", "titleBarStyle",
   "globalShortcuts"]

/-- Function `selectAppArgs` (buildApp.js:13-62): the object literal
`{ name: options.name, targetUrl: options.targetUrl, ... }`; each read
of a missing property yields `undefined`. -/
def selectAppArgs (options : JObj) : JObj :=
  appArgFields.map (fun k => (k, getFieldD options k))

/-- Node's `path.extname`: the suffix of the last path segment from its
last dot, empty when the segment has no dot or only a leading dot. -/
def extname (s : String) : String :=
  let base := (s.data.reverse.takeWhile (fun c => c ≠ '/')).reverse
  let afterDot := base.reverse.takeWhile (fun c => c ≠ '.')
  if afterDot.length + 1 < base.length then
    String.mk ('.' :: afterDot.reverse)
  else ""

/-- Filesystem / copy oracle for one `buildApp` run. -/
structure StageFS where
  existsOnDisk : String → Bool
  treeCopyErr : Option String
  injCopyErr : String → Option String

/-- The rejection message of a missing injection file (buildApp.js:74). -/
def injectionNotFoundMsg : String :=
  "Error copying injection files: file not found"

/-- Copy phase of `maybeCopyScripts`: each `.js` asset is copied to
`inject/inject.js`, each `.css` to `inject/inject.css`, other
extensions resolve without copying; the run fails with the first copy
error. -/
def copyScriptsPhase (fs : StageFS) : List String → Except String Unit
  | [] => .ok ()
  | src :: rest =>
    if extname src = ".js" || extname src = ".css" then
      match fs.injCopyErr src with
      | some e => .error ("Error Copying injection files: " ++ e)
      | none => copyScriptsPhase fs rest
    else copyScriptsPhase fs rest

/-- Function `maybeCopyScripts` (buildApp.js:64-107).  Each source that does not
pass `fs.existsSync` yields an already-rejected promise; `Promise.all`
therefore settles on a missing file before any asynchronous copy
completes, so existence failures take precedence over copy failures. -/
def maybeCopyScripts (fs : StageFS) (srcs : Option (List String)) :
    Except String Unit :=
  match srcs with
  | none => .ok ()
  | some list =>
    if list.any (fun src => !fs.existsOnDisk src) then
      .error injectionNotFoundMsg
    else copyScriptsPhase fs list

/-- Reading `options.inject`: modelled as present only when it is an array of
strings (the CLI hands the `--inject` paths through as such). -/
def injectList (o : JObj) : Option (List String) :=
  match getFieldD o "inject" with
  | .vArr es =>
    some (es.filterMap (fun e => match e with | .vStr s => some s | _ => none))
  | _ => none

/-- Observable steps of one `buildApp` run. -/
inductive BEvent where
  | treeCopy : BEvent
  | writeSnapshot : BEvent
  | warnLogged : String → BEvent
  | renamePackageJson : BEvent
deriving Repr, DecidableEq

/-- Function `buildApp` (buildApp.js:135-157): full-tree copy, snapshot write,
injection copy whose failure is caught and logged (`.catch(err =>
log.warn(err))`), package.json rename, then `callback()`.  The first
component is the value `buildApp` passes to its callback (`none` for a
plain `callback()`, i.e. success). -/
def buildAppRun (fs : StageFS) (options : JObj) : Option String × List BEvent :=
  match fs.treeCopyErr with
  | some e => (some ("Error Copying temporary directory: " ++ e), [.treeCopy])
  | none =>
    match maybeCopyScripts fs (injectList options) with
    | .error err =>
      (none, [.treeCopy, .writeSnapshot, .warnLogged err, .renamePackageJson])
    | .ok _ =>
      (none, [.treeCopy, .writeSnapshot, .renamePackageJson])

/-! ## buildMain.js -/

/-- Function `getAppPath` (buildMain.js:23-38): `null` for an empty result array,
otherwise the first element (more than one only logs a warning). -/
def getAppPath : List String → Option String
  | [] => none
  | p :: _ => some p

/-- Observable steps of one `buildMain` run.  `callCopyIcons` records
that the `maybeCopyIcons` function was entered (it may still decide to
do nothing); `copyIconFile` records that the icon file copy itself was
started. -/
inductive Event where
  | tick : String → Event
  | callOptionsFactory : Event
  | callBuildApp : Event
  | callIconBuild : Event
  | consoleOverride : Event
  | callPackager : Event
  | consoleRestore : Event
  | callCopyIcons : Event
  | copyIconFile : Event
  | consolePlayback : Event
deriving Repr, DecidableEq

/-- Outcomes of the external collaborators of one `buildMain` run.
Rejection values (`optionsFactoryRes`, `packagerRes`, `copyIconErr`)
are modelled as truthy errors, which is what the program produces
(`Error` objects); `buildAppErr` is the string `buildApp` passes to its
callback and is tested for truthiness explicitly, as the source does. -/
structure Externals where
  env : Env
  tmpPath : String
  optionsFactoryRes : Except JValue JObj
  buildAppErr : Option String
  iconBuildErr : Option JValue
  iconBuildOpts : JObj → JObj
  packagerRes : JObj → Except JValue (List String)
  copyIconErr : Option JValue

/-- Result of one `buildMain` run: the trace of observable steps and
the two arguments `(error, appPath)` of the final callback. -/
structure RunResult where
  events : List Event
  error : JValue
  appPath : JValue
deriving Repr, DecidableEq

/-- Function `buildMain` (buildMain.js:159-248) as one deterministic run of the
five-stage `async.waterfall`:

* stage 1 ticks `inferring` and calls the options factory; a rejection
  aborts with that error;
* stage 2 ticks `copying` and calls `buildApp`; a truthy callback error
  aborts with it, otherwise `dir` is rebound to the scratch path;
* stage 3 ticks `icons` and calls `iconBuild`, whose error is discarded
  (`cb(null, optionsWithIcon)`);
* stage 4 ticks `packaging`, sanitizes the options through the
  capability guards, overrides the console, calls the packager, and
  restores the console; a rejection propagates `(error, opts)` through
  the waterfall, so the final callback sees the pre-sanitization
  options in its `appPath` slot;
* stage 5 ticks `finalizing`; a falsy app path (empty result array or
  empty string) ends the run with `cb()`; otherwise `maybeCopyIcons`
  runs and its error (or `undefined`) is passed to the final callback
  together with the app path.

`packagerConsole.playback()` runs in the final callback in every case. -/
def buildMainRun (ext : Externals) (inpOptions : JObj) : RunResult :=
  let _options := inpOptions  -- Object.assign({}, inpOptions): a fresh shallow copy
  match ext.optionsFactoryRes with
  | .error err =>
    ⟨[.tick "inferring", .callOptionsFactory, .consolePlayback],
      err, .vUndefined⟩
  | .ok opts1 =>
    let e1 : List Event :=
      [.tick "inferring", .callOptionsFactory, .tick "copying", .callBuildApp]
    match ext.buildAppErr with
    | some berr =>
      if berr = "" then  -- falsy error string: `if (error)` not taken
        buildMainAfterCopy ext e1 opts1
      else ⟨e1 ++ [.consolePlayback], .vStr berr, .vUndefined⟩
    | none => buildMainAfterCopy ext e1 opts1
where
  -- Stages 3 to 5, entered once buildApp has succeeded.
  buildMainAfterCopy (ext : Externals) (e1 : List Event) (opts1 : JObj) :
      RunResult :=
    let opts2 := setField opts1 "dir" (.vStr ext.tmpPath)
    let opts3 := ext.iconBuildOpts opts2
    let e3 := e1 ++ [.tick "icons", .callIconBuild,
      .tick "packaging", .consoleOverride, .callPackager]
    let packageOptions := sanitizeForPackager ext.env opts3
    match ext.packagerRes packageOptions.1 with
    | .error perr =>
      ⟨e3 ++ [.consoleRestore, .consolePlayback], perr, .vObj opts3⟩
    | .ok appPathArray =>
      let e4 := e3 ++ [.consoleRestore, .tick "finalizing"]
      match getAppPath appPathArray with
      | none => ⟨e4 ++ [.consolePlayback], .vUndefined, .vUndefined⟩
      | some p =>
        if p = "" then  -- `if (!appPath)`: the empty string is falsy
          ⟨e4 ++ [.consolePlayback], .vUndefined, .vUndefined⟩
        else
          let e5 := e4 ++ [.callCopyIcons]
          if !jsTruthy (getFieldD opts3 "icon") then
            ⟨e5 ++ [.consolePlayback], .vUndefined, .vStr p⟩
          else if getFieldD opts3 "platform" == JValue.vStr "darwin"
              || getFieldD opts3 "platform" == JValue.vStr "mas" then
            ⟨e5 ++ [.consolePlayback], .vUndefined, .vStr p⟩
          else
            match ext.copyIconErr with
            | none => ⟨e5 ++ [.copyIconFile, .consolePlayback], .vUndefined, .vStr p⟩
            | some cerr => ⟨e5 ++ [.copyIconFile, .consolePlayback], cerr, .vStr p⟩

/-- The five stage names in pipeline order. -/
def stageNames : List String :=
  ["inferring", "copying", "icons", "packaging", "finalizing"]

/-- The progress-tick labels of a trace, in order. -/
def tickLabels (evs : List Event) : List String :=
  evs.filterMap (fun e => match e with | .tick l => some l | _ => none)

/-- The stage a non-tick working step belongs to. -/
def stageOfWork : Event → Option String
  | .callOptionsFactory => some "inferring"
  | .callBuildApp => some "copying"
  | .callIconBuild => some "icons"
  | .consoleOverride => some "packaging"
  | .callPackager => some "packaging"
  | .callCopyIcons => some "finalizing"
  | .copyIconFile => some "finalizing"
  | _ => none

/-- Checks that every working step of a trace is preceded by the tick of
its own stage. -/
def ticksBeforeWork : List Event → List String → Bool
  | [], _ => true
  | .tick l :: rest, seen => ticksBeforeWork rest (l :: seen)
  | e :: rest, seen =>
    match stageOfWork e with
    | none => ticksBeforeWork rest seen
    | some s => seen.contains s && ticksBeforeWork rest seen

/-- How many stages of a run start (equivalently: tick), given the
external outcomes; mirrors the branch structure of `buildMainRun`. -/
def stagesStarted (ext : Externals) : Nat :=
  match ext.optionsFactoryRes with
  | .error _ => 1
  | .ok opts1 =>
    match ext.buildAppErr with
    | some berr => if berr = "" then stagesAfterCopy ext opts1 else 2
    | none => stagesAfterCopy ext opts1
where
  stagesAfterCopy (ext : Externals) (opts1 : JObj) : Nat :=
    let opts3 := ext.iconBuildOpts (setField opts1 "dir" (.vStr ext.tmpPath))
    match ext.packagerRes (sanitizeForPackager ext.env opts3).1 with
    | .error _ => 4
    | .ok _ => 5

/-! ## normalizeAppName (buildApp.js:109-116)

`crypto.createHash('md5').update(url).digest('hex').substring(0, 6)`
appended to `_.kebabCase(appName.toLowerCase())`.  MD5 (RFC 1321) is
implemented over byte lists with arithmetic modulo `2 ^ 32`. -/

/-- UTF-8 encoding of one character. -/
def utf8Encode (c : Char) : List Nat :=
  let n := c.toNat
  if n < 128 then [n]
  else if n < 2048 then [192 + n / 64, 128 + n % 64]
  else if n < 65536 then [224 + n / 4096, 128 + n / 64 % 64, 128 + n % 64]
  else [240 + n / 262144, 128 + n / 4096 % 64, 128 + n / 64 % 64, 128 + n % 64]

/-- The UTF-8 bytes of a string (what `hash.update(url)` consumes). -/
def strBytes (s : String) : List Nat := s.data.flatMap utf8Encode

/-- Left rotation of a 32-bit word. -/
def rotl32 (x s : Nat) : Nat :=
  ((x <<< s) ||| (x >>> (32 - s))) % 2 ^ 32

/-- MD5 sine-derived constant table. -/
def md5K : List Nat :=
  [0xd76aa478, 0xe8c7b756, 0x242070db, 0xc1bdceee,
   0xf57c0faf, 0x4787c62a, 0xa8304613, 0xfd469501,
   0x698098d8, 0x8b44f7af, 0xffff5bb1, 0x895cd7be,
   0x6b901122, 0xfd987193, 0xa679438e, 0x49b40821,
   0xf61e2562, 0xc040b340, 0x265e5a51, 0xe9b6c7aa,
   0xd62f105d, 0x02441453, 0xd8a1e681, 0xe7d3fbc8,
   0x21e1cde6, 0xc33707d6, 0xf4d50d87, 0x455a14ed,
   0xa9e3e905, 0xfcefa3f8, 0x676f02d9, 0x8d2a4c8a,
   0xfffa3942, 0x8771f681, 0x6d9d6122, 0xfde5380c,
   0xa4beea44, 0x4bdecfa9, 0xf6bb4b60, 0xbebfbc70,
   0x289b7ec6, 0xeaa127fa, 0xd4ef3085, 0x04881d05,
   0xd9d4d039, 0xe6db99e5, 0x1fa27cf8, 0xc4ac5665,
   0xf4292244, 0x432aff97, 0xab9423a7, 0xfc93a039,
   0x655b59c3, 0x8f0ccc92, 0xffeff47d, 0x85845dd1,
   0x6fa87e4f, 0xfe2ce6e0, 0xa3014314, 0x4e0811a1,
   0xf7537e82, 0xbd3af235, 0x2ad7d2bb, 0xeb86d391]

/-- MD5 per-round shift amounts. -/
def md5S : List Nat :=
  [7, 12, 17, 22, 7, 12, 17, 22, 7, 12, 17, 22, 7, 12, 17, 22,
   5, 9, 14, 20, 5, 9, 14, 20, 5, 9, 14, 20, 5, 9, 14, 20,
   4, 11, 16, 23, 4, 11, 16, 23, 4, 11, 16, 23, 4, 11, 16, 23,
   6, 10, 15, 21, 6, 10, 15, 21, 6, 10, 15, 21, 6, 10, 15, 21]

/-- MD5 round function on `(b, c, d)` for operation index `i`. -/
def md5F (i b c d : Nat) : Nat :=
  if i < 16 then (b &&& c) ||| ((b ^^^ 0xffffffff) &&& d)
  else if i < 32 then (d &&& b) ||| ((d ^^^ 0xffffffff) &&& c)
  else if i < 48 then b ^^^ c ^^^ d
  else c ^^^ (b ||| (d ^^^ 0xffffffff))

/-- MD5 message-word index for operation index `i`. -/
def md5G (i : Nat) : Nat :=
  if i < 16 then i
  else if i < 32 then (5 * i + 1) % 16
  else if i < 48 then (3 * i + 5) % 16
  else (7 * i) % 16

/-- One of the 64 MD5 operations. -/
def md5Step (m : List Nat) (st : Nat × Nat × Nat × Nat) (i : Nat) :
    Nat × Nat × Nat × Nat :=
  let (a, b, c, d) := st
  let f := (md5F i b c d + a + md5K.getD i 0 + m.getD (md5G i) 0) % 2 ^ 32
  (d, (b + rotl32 f (md5S.getD i 0)) % 2 ^ 32, b, c)

/-- The sixteen little-endian 32-bit words of a 64-byte block. -/
def blockWords (block : List Nat) : List Nat :=
  (List.range 16).map (fun i =>
    block.getD (4 * i) 0 + 2 ^ 8 * block.getD (4 * i + 1) 0 +
      2 ^ 16 * block.getD (4 * i + 2) 0 + 2 ^ 24 * block.getD (4 * i + 3) 0)

/-- MD5 compression of one 64-byte block. -/
def md5Block (st : Nat × Nat × Nat × Nat) (block : List Nat) :
    Nat × Nat × Nat × Nat :=
  let m := blockWords block
  let r := (List.range 64).foldl (md5Step m) st
  ((st.1 + r.1) % 2 ^ 32, (st.2.1 + r.2.1) % 2 ^ 32,
    (st.2.2.1 + r.2.2.1) % 2 ^ 32, (st.2.2.2 + r.2.2.2) % 2 ^ 32)

/-- The eight little-endian bytes of the 64-bit message bit length. -/
def md5LenBytes (n : Nat) : List Nat :=
  (List.range 8).map (fun i => n / 2 ^ (8 * i) % 256)

/-- MD5 padding: `0x80`, zeros to 56 mod 64, then the bit length. -/
def md5Pad (msg : List Nat) : List Nat :=
  let L := msg.length
  msg ++ [0x80] ++ List.replicate ((119 - L % 64) % 64) 0 ++
    md5LenBytes ((8 * L) % 2 ^ 64)

/-- The MD5 state after absorbing a whole message: the padded message
has a multiple of 64 bytes and is consumed block by block. -/
def md5Digest (msg : List Nat) : Nat × Nat × Nat × Nat :=
  let padded := md5Pad msg
  (List.range (padded.length / 64)).foldl
    (fun st i => md5Block st ((padded.drop (64 * i)).take 64))
    (0x67452301, 0xefcdab89, 0x98badcfe, 0x10325476)

/-- The four little-endian bytes of a 32-bit word. -/
def wordLEBytes (w : Nat) : List Nat :=
  [w % 256, w / 2 ^ 8 % 256, w / 2 ^ 16 % 256, w / 2 ^ 24 % 256]

/-- The sixteen digest bytes of a message. -/
def digestBytes (msg : List Nat) : List Nat :=
  let r := md5Digest msg
  wordLEBytes r.1 ++ wordLEBytes r.2.1 ++ wordLEBytes r.2.2.1 ++
    wordLEBytes r.2.2.2

/-- Lower-case hexadecimal digit. -/
def hexDigitChar (n : Nat) : Char :=
  if n < 10 then Char.ofNat (48 + n) else Char.ofNat (87 + n)

/-- The two hex characters of one byte. -/
def byteHex (b : Nat) : List Char := [hexDigitChar (b / 16), hexDigitChar (b % 16)]

/-- Model of `digest('hex')`: the 32 hex characters of the MD5 digest. -/
def md5HexChars (msg : List Nat) : List Char :=
  (digestBytes msg).flatMap byteHex

/-- ASCII upper-case letter. -/
def isUpperLetter (c : Char) : Bool := 65 ≤ c.toNat && c.toNat ≤ 90

/-- Model of `String.prototype.toLowerCase` on the ASCII range (the inputs this
program feeds it). -/
def jsToLowerCase (s : String) : String :=
  String.mk (s.data.map (fun c =>
    if isUpperLetter c then Char.ofNat (c.toNat + 32) else c))

/-- ASCII lower-case letter. -/
def isLowerLetter (c : Char) : Bool := 97 ≤ c.toNat && c.toNat ≤ 122

/-- ASCII digit. -/
def isDigitChar (c : Char) : Bool := 48 ≤ c.toNat && c.toNat ≤ 57

/-- Word character for lodash's word splitting of a lower-cased ASCII
string. -/
def isWordChar (c : Char) : Bool := isLowerLetter c || isDigitChar c

/-- Two word characters belong to the same word iff they are of the
same kind (lodash splits `abc123` into `abc` and `123`). -/
def sameKind (a b : Char) : Bool :=
  (isLowerLetter a && isLowerLetter b) || (isDigitChar a && isDigitChar b)

/-- lodash's word splitting (`_.words`), modelled for the lower-cased
ASCII strings `normalizeAppName` feeds it: maximal runs of letters and
maximal runs of digits, everything else a separator. -/
def wordsOf : List Char → List (List Char)
  | [] => []
  | c :: rest =>
    if !isWordChar c then wordsOf rest
    else
      match rest with
      | [] => [[c]]
      | r :: _ =>
        if isWordChar r && sameKind c r then
          match wordsOf rest with
          | w :: ws' => (c :: w) :: ws'
          | [] => [[c]]
        else [c] :: wordsOf rest

/-- Join words with hyphens. -/
def joinHyphen : List (List Char) → List Char
  | [] => []
  | [w] => w
  | w :: ws => w ++ '-' :: joinHyphen ws

/-- lodash's `_.kebabCase`, modelled for lower-cased ASCII input: strip
apostrophes, split into words, join with hyphens. -/
def kebabCase (s : String) : String :=
  String.mk (joinHyphen (wordsOf (s.data.filter (fun c => c ≠ Char.ofNat 39))))

/-- Function `normalizeAppName` (buildApp.js:109-116): kebab-cased lower-cased
name, `-nativefier-`, first six hex characters of the MD5 of the URL. -/
def normalizeAppName (appName url : String) : String :=
  let postFixHash := String.mk ((md5HexChars (strBytes url)).take 6)
  let normalized := kebabCase (jsToLowerCase appName)
  normalized ++ "-nativefier-" ++ postFixHash

/-- A character allowed in the kebab-cased part of a derived name. -/
def isKebabChar (c : Char) : Bool := isWordChar c || c == '-'

/-- A lower-case hexadecimal character. -/
def isLowerHexChar (c : Char) : Bool :=
  isDigitChar c || (97 ≤ c.toNat && c.toNat ≤ 102)

/-- An ASCII alphanumeric character. -/
def isAsciiAlnum (c : Char) : Bool := isWordChar c || isUpperLetter c

/-- The shape `^[a-z0-9-]+-nativefier-[0-9a-f]\x7b6\x7d$` of a derived
package name. -/
def matchesNameShape (s : String) : Prop :=
  ∃ a h : List Char,
    s.data = a ++ "-nativefier-".data ++ h ∧ a ≠ [] ∧
      (∀ c ∈ a, isKebabChar c = true) ∧ h.length = 6 ∧
      (∀ c ∈ h, isLowerHexChar c = true)

/-! ## Lemmas about objects and JSON round trips -/

theorem getField_setField_same (o : JObj) (k : String) (v : JValue) :
    getField (setField o k v) k = some v := by
  induction o with
  | nil => simp [setField, getField]
  | cons kv rest ih =>
    obtain ⟨k', v'⟩ := kv
    by_cases h : k' = k
    · simp [setField, h, getField]
    · simp [setField, h, getField, ih]

theorem getField_setField_other (o : JObj) (k k' : String) (v : JValue)
    (h : k' ≠ k) : getField (setField o k v) k' = getField o k' := by
  induction o with
  | nil => simp [setField, getField, h.symm]
  | cons kv rest ih =>
    obtain ⟨k1, v1⟩ := kv
    by_cases h1 : k1 = k
    · subst h1
      simp [setField, getField, h.symm]
    · simp [setField, h1, getField, ih]

/-- A field whose value survives a JSON round trip unchanged is still
found (first) after the round trip. -/
theorem getField_roundTripObj_stable (o : JObj) (k : String) (v : JValue)
    (hv : roundTripVal v = some v) (h : getField o k = some v) :
    getField (roundTripObj o) k = some v := by
  induction o with
  | nil => simp [getField] at h
  | cons kv rest ih =>
    obtain ⟨k1, v1⟩ := kv
    by_cases h1 : k1 = k
    · subst h1
      simp [getField] at h
      subst h
      simp [roundTripObj, hv, getField]
    · simp [getField, h1] at h
      cases hrt : roundTripVal v1 with
      | none => simp [roundTripObj, hrt, ih h]
      | some v1' => simp [roundTripObj, hrt, getField, h1, ih h]

theorem getField_roundTripObj_of_not_mem (o : JObj) (k : String)
    (h : k ∉ o.map Prod.fst) : getField (roundTripObj o) k = none := by
  induction o with
  | nil => simp [roundTripObj, getField]
  | cons kv rest ih =>
    obtain ⟨k1, v1⟩ := kv
    simp only [List.map_cons, List.mem_cons] at h
    push_neg at h
    cases hrt : roundTripVal v1 with
    | none =>
      rw [roundTripObj, hrt]
      exact ih h.2
    | some v1' => simp [roundTripObj, hrt, getField, h.1.symm, ih h.2]

/-- A field holding a non-serializable value (`undefined` or a
function) is dropped by the JSON round trip. -/
theorem getField_roundTripObj_dropped (o : JObj) (k : String) (v : JValue)
    (hnd : (o.map Prod.fst).Nodup) (h : getField o k = some v)
    (hv : roundTripVal v = none) : getField (roundTripObj o) k = none := by
  induction o with
  | nil => simp [getField] at h
  | cons kv rest ih =>
    obtain ⟨k1, v1⟩ := kv
    simp only [List.map_cons, List.nodup_cons] at hnd
    by_cases h1 : k1 = k
    · subst h1
      simp [getField] at h
      subst h
      simp [roundTripObj, hv]
      exact getField_roundTripObj_of_not_mem rest k1 hnd.1
    · simp [getField, h1] at h
      cases hrt : roundTripVal v1 with
      | none =>
        rw [roundTripObj, hrt]
        exact ih hnd.2 h
      | some v1' => simp [roundTripObj, hrt, getField, h1, ih hnd.2 h]

mutual
/-- A fully serializable value is fixed by the JSON round trip. -/
theorem roundTripVal_serial : ∀ v : JValue, serialVal v = true → roundTripVal v = some v
  | .vNull, _ => rfl
  | .vBool _, _ => rfl
  | .vNum _, _ => rfl
  | .vStr _, _ => rfl
  | .vArr es, h => by
    rw [roundTripVal, roundTripArr_serial es (by simpa [serialVal] using h)]
  | .vObj fs, h => by
    rw [roundTripVal, roundTripObj_serial fs (by simpa [serialVal] using h)]

theorem roundTripArr_serial : ∀ es : List JValue, serialArr es = true → roundTripArr es = es
  | [], _ => rfl
  | e :: rest, h => by
    rw [serialArr, Bool.and_eq_true] at h
    rw [roundTripArr, roundTripVal_serial e h.1, roundTripArr_serial rest h.2]
    rfl

theorem roundTripObj_serial : ∀ fs : List (String × JValue), serialObj fs = true → roundTripObj fs = fs
  | [], _ => rfl
  | (k, v) :: rest, h => by
    rw [serialObj, Bool.and_eq_true] at h
    rw [roundTripObj, roundTripVal_serial v h.1, roundTripObj_serial rest h.2]
end

/-! ## Lemmas about the capability guards -/

/-- On a win32 target, off Windows, without wine, `maybeNoIconOption`
returns the round-tripped copy with `icon` nulled, plus one warning. -/
theorem maybeNoIconOption_win32 (o : JObj)
    (hplat : getField o "platform" = some (.vStr "win32")) :
    maybeNoIconOption ⟨false, false⟩ o =
      (setField (roundTripObj o) "icon" .vNull, [wineWarnIcon]) := by
  have hd : getFieldD o "platform" = JValue.vStr "win32" := by
    simp [getFieldD, hplat]
  simp [maybeNoIconOption, hd]

/-- On a win32 target, off Windows, without wine,
`removeInvalidOptions` returns the round-tripped copy with `param`
nulled, plus one warning naming the parameter. -/
theorem removeInvalidOptions_win32 (o : JObj) (p : String)
    (hplat : getField o "platform" = some (.vStr "win32")) :
    removeInvalidOptions ⟨false, false⟩ o p =
      (setField (roundTripObj o) p .vNull, [wineWarn p]) := by
  have hd : getFieldD o "platform" = JValue.vStr "win32" := by
    simp [getFieldD, hplat]
  simp [removeInvalidOptions, hd]

/-- A round-trip-stable field distinct from the nulled parameter
survives one guard step. -/
theorem getField_guardStep (o : JObj) (p k : String) (v : JValue)
    (hk : k ≠ p) (hv : roundTripVal v = some v)
    (h : getField o k = some v) :
    getField (setField (roundTripObj o) p .vNull) k = some v := by
  rw [getField_setField_other _ _ _ _ hk]
  exact getField_roundTripObj_stable o k v hv h

/-- The nulled parameter reads `null` after a guard step. -/
theorem getField_guardStep_self (o : JObj) (p : String) :
    getField (setField (roundTripObj o) p .vNull) p = some .vNull :=
  getField_setField_same _ _ _

/-- A non-Windows host without wine on the search path. -/
def envNoWine : Env := ⟨false, false⟩

/-- A minimal win32 configuration. -/
def win32Cfg : JObj := [("platform", .vStr "win32")]

/-- C1, counterexample: on a win32 target packaged off-Windows without
wine, the claim as stated — the six fields nulled and five warnings
recorded — is false at `win32Cfg`: the code records six warnings
(`maybeNoIconOption` warns about the icon in addition to the five
`removeInvalidOptions` warnings). -/
theorem c1_counterexample :
    ¬ (getField (sanitizeForPackager envNoWine win32Cfg).1 "icon" = some .vNull ∧
       getField (sanitizeForPackager envNoWine win32Cfg).1 "appCopyright" = some .vNull ∧
       getField (sanitizeForPackager envNoWine win32Cfg).1 "buildVersion" = some .vNull ∧
       getField (sanitizeForPackager envNoWine win32Cfg).1 "appVersion" = some .vNull ∧
       getField (sanitizeForPackager envNoWine win32Cfg).1 "versionString" = some .vNull ∧
       getField (sanitizeForPackager envNoWine win32Cfg).1 "win32metadata" = some .vNull ∧
       (sanitizeForPackager envNoWine win32Cfg).2.length = 5) := by
  decide

/-- C1, amended: for every configuration targeting win32, sanitized on
a non-Windows host without wine, the sanitized configuration passed to
the packaging engine has `icon`, `appCopyright`, `buildVersion`,
`appVersion`, `versionString` and `win32metadata` all null, and six
warnings are recorded: one for the icon and five naming the other
removed options. -/
theorem c1_win32_sanitization (opts : JObj)
    (hplat : getField opts "platform" = some (.vStr "win32")) :
    getField (sanitizeForPackager envNoWine opts).1 "icon" = some .vNull ∧
    getField (sanitizeForPackager envNoWine opts).1 "appCopyright" = some .vNull ∧
    getField (sanitizeForPackager envNoWine opts).1 "buildVersion" = some .vNull ∧
    getField (sanitizeForPackager envNoWine opts).1 "appVersion" = some .vNull ∧
    getField (sanitizeForPackager envNoWine opts).1 "versionString" = some .vNull ∧
    getField (sanitizeForPackager envNoWine opts).1 "win32metadata" = some .vNull ∧
    (sanitizeForPackager envNoWine opts).2 =
      [wineWarnIcon, wineWarn "appCopyright", wineWarn "appVersion",
       wineWarn "buildVersion", wineWarn "versionString",
       wineWarn "win32metadata"] := by
  have stN : roundTripVal .vNull = some .vNull := rfl
  have stW : roundTripVal (.vStr "win32") = some (.vStr "win32") := rfl
  -- step 1: icon
  have e1 := maybeNoIconOption_win32 opts hplat
  have p1 := getField_guardStep opts "icon" "platform" _ (by decide) stW hplat
  have i1 := getField_guardStep_self opts "icon"
  -- step 2: appCopyright
  have e2 := removeInvalidOptions_win32 _ "appCopyright" p1
  have p2 := getField_guardStep _ "appCopyright" "platform" _ (by decide) stW p1
  have i2 := getField_guardStep _ "appCopyright" "icon" _ (by decide) stN i1
  have c2 := getField_guardStep_self (setField (roundTripObj opts) "icon" .vNull) "appCopyright"
  -- step 3: appVersion
  have e3 := removeInvalidOptions_win32 _ "appVersion" p2
  have p3 := getField_guardStep _ "appVersion" "platform" _ (by decide) stW p2
  have i3 := getField_guardStep _ "appVersion" "icon" _ (by decide) stN i2
  have c3 := getField_guardStep _ "appVersion" "appCopyright" _ (by decide) stN c2
  have a3 := getField_guardStep_self
    (setField (roundTripObj (setField (roundTripObj opts) "icon" .vNull)) "appCopyright" .vNull)
    "appVersion"
  -- step 4: buildVersion
  have e4 := removeInvalidOptions_win32 _ "buildVersion" p3
  have p4 := getField_guardStep _ "buildVersion" "platform" _ (by decide) stW p3
  have i4 := getField_guardStep _ "buildVersion" "icon" _ (by decide) stN i3
  have c4 := getField_guardStep _ "buildVersion" "appCopyright" _ (by decide) stN c3
  have a4 := getField_guardStep _ "buildVersion" "appVersion" _ (by decide) stN a3
  have b4 := getField_guardStep_self
    (setField (roundTripObj (setField (roundTripObj (setField (roundTripObj opts) "icon" .vNull)) "appCopyright" .vNull)) "appVersion" .vNull)
    "buildVersion"
  -- step 5: versionString
  have e5 := removeInvalidOptions_win32 _ "versionString" p4
  have i5 := getField_guardStep _ "versionString" "icon" _ (by decide) stN i4
  have c5 := getField_guardStep _ "versionString" "appCopyright" _ (by decide) stN c4
  have a5 := getField_guardStep _ "versionString" "appVersion" _ (by decide) stN a4
  have b5 := getField_guardStep _ "versionString" "buildVersion" _ (by decide) stN b4
  have p5 := getField_guardStep _ "versionString" "platform" _ (by decide) stW p4
  have v5 := getField_guardStep_self
    (setField (roundTripObj (setField (roundTripObj (setField (roundTripObj (setField (roundTripObj opts) "icon" .vNull)) "appCopyright" .vNull)) "appVersion" .vNull)) "buildVersion" .vNull)
    "versionString"
  -- step 6: win32metadata
  have e6 := removeInvalidOptions_win32 _ "win32metadata" p5
  have i6 := getField_guardStep _ "win32metadata" "icon" _ (by decide) stN i5
  have c6 := getField_guardStep _ "win32metadata" "appCopyright" _ (by decide) stN c5
  have a6 := getField_guardStep _ "win32metadata" "appVersion" _ (by decide) stN a5
  have b6 := getField_guardStep _ "win32metadata" "buildVersion" _ (by decide) stN b5
  have v6 := getField_guardStep _ "win32metadata" "versionString" _ (by decide) stN v5
  have w6 := getField_guardStep_self
    (setField (roundTripObj (setField (roundTripObj (setField (roundTripObj (setField (roundTripObj (setField (roundTripObj opts) "icon" .vNull)) "appCopyright" .vNull)) "appVersion" .vNull)) "buildVersion" .vNull)) "versionString" .vNull)
    "win32metadata"
  have hs : sanitizeForPackager envNoWine opts =
      (setField (roundTripObj (setField (roundTripObj (setField (roundTripObj (setField (roundTripObj (setField (roundTripObj (setField (roundTripObj opts) "icon" .vNull)) "appCopyright" .vNull)) "appVersion" .vNull)) "buildVersion" .vNull)) "versionString" .vNull)) "win32metadata" .vNull,
       [wineWarnIcon, wineWarn "appCopyright", wineWarn "appVersion",
        wineWarn "buildVersion", wineWarn "versionString",
        wineWarn "win32metadata"]) := by
    show sanitizeForPackager ⟨false, false⟩ opts = _
    simp [sanitizeForPackager, maybeNoAppCopyrightOption,
      maybeNoAppVersionOption, maybeNoBuildVersionOption,
      maybeNoVersionStringOption, maybeNoWin32metadataOption,
      e1, e2, e3, e4, e5, e6]
  rw [hs]
  exact ⟨i6, c6, b6, a6, v6, w6, rfl⟩

/-- C1 witness: the amended theorem at the concrete configuration
`win32Cfg`. -/
theorem c1_witness :
    getField win32Cfg "platform" = some (.vStr "win32") ∧
    (getField (sanitizeForPackager envNoWine win32Cfg).1 "icon" = some .vNull ∧
     getField (sanitizeForPackager envNoWine win32Cfg).1 "appCopyright" = some .vNull ∧
     getField (sanitizeForPackager envNoWine win32Cfg).1 "buildVersion" = some .vNull ∧
     getField (sanitizeForPackager envNoWine win32Cfg).1 "appVersion" = some .vNull ∧
     getField (sanitizeForPackager envNoWine win32Cfg).1 "versionString" = some .vNull ∧
     getField (sanitizeForPackager envNoWine win32Cfg).1 "win32metadata" = some .vNull ∧
     (sanitizeForPackager envNoWine win32Cfg).2 =
       [wineWarnIcon, wineWarn "appCopyright", wineWarn "appVersion",
        wineWarn "buildVersion", wineWarn "versionString",
        wineWarn "win32metadata"]) :=
  ⟨by decide, c1_win32_sanitization win32Cfg (by decide)⟩

/-- Each guard returns either the plain round-trip copy or the copy
with its parameter nulled. -/
theorem removeInvalidOptions_shape (env : Env) (opts : JObj) (p : String) :
    (removeInvalidOptions env opts p).1 = roundTripObj opts ∨
    (removeInvalidOptions env opts p).1 = setField (roundTripObj opts) p .vNull := by
  unfold removeInvalidOptions
  split
  · split
    · right; rfl
    · left; rfl
  · left; rfl

/-- Shape of `maybeNoIconOption`, as for `removeInvalidOptions`. -/
theorem maybeNoIconOption_shape (env : Env) (opts : JObj) :
    (maybeNoIconOption env opts).1 = roundTripObj opts ∨
    (maybeNoIconOption env opts).1 = setField (roundTripObj opts) "icon" .vNull := by
  unfold maybeNoIconOption
  split
  · split
    · right; rfl
    · left; rfl
  · left; rfl

/-- After one guard step, a field whose original value does not survive
JSON serialization reads as absent or `null`. -/
theorem getField_guard_dropped (opts : JObj) (p k : String) (v : JValue)
    (hnd : (opts.map Prod.fst).Nodup) (h : getField opts k = some v)
    (hv : roundTripVal v = none) :
    getField (setField (roundTripObj opts) p .vNull) k = none ∨
    getField (setField (roundTripObj opts) p .vNull) k = some .vNull := by
  by_cases hk : k = p
  · subst hk
    right
    exact getField_setField_same _ _ _
  · left
    rw [getField_setField_other _ _ _ _ hk]
    exact getField_roundTripObj_dropped opts k v hnd h hv

/-- C10: the Platform Capability Guards copy their input with a JSON
serialize/parse round trip, so (a) for every configuration with a field
holding `undefined` or a function, both `maybeNoIconOption` and
`removeInvalidOptions` return a copy in which that field is dropped or
replaced by `null` — hence differs from the input — for any host and
target platform; and (b) on a Windows host (where the guards remove
nothing) a fully JSON-serializable configuration is returned exactly
unchanged. -/
theorem c10_guards_json_round_trip (env : Env) (opts : JObj) (param k : String)
    (v : JValue) :
    ((opts.map Prod.fst).Nodup → getField opts k = some v →
      roundTripVal v = none →
      ((getField (maybeNoIconOption env opts).1 k = none ∨
        getField (maybeNoIconOption env opts).1 k = some .vNull) ∧
        getField (maybeNoIconOption env opts).1 k ≠ getField opts k ∧
        (getField (removeInvalidOptions env opts param).1 k = none ∨
          getField (removeInvalidOptions env opts param).1 k = some .vNull) ∧
        getField (removeInvalidOptions env opts param).1 k ≠ getField opts k)) ∧
    (serialObj opts = true → env.isWindows = true →
      (maybeNoIconOption env opts).1 = opts ∧
      (removeInvalidOptions env opts param).1 = opts) := by
  constructor
  · intro hnd h hv
    have hvnull : v ≠ .vNull := by
      intro hh
      subst hh
      simp [roundTripVal] at hv
    have dropped := getField_roundTripObj_dropped opts k v hnd h hv
    have hIcon : getField (maybeNoIconOption env opts).1 k = none ∨
        getField (maybeNoIconOption env opts).1 k = some .vNull := by
      rcases maybeNoIconOption_shape env opts with hw | hw
      · rw [hw]
        exact Or.inl dropped
      · rw [hw]
        exact getField_guard_dropped opts "icon" k v hnd h hv
    have hRem : getField (removeInvalidOptions env opts param).1 k = none ∨
        getField (removeInvalidOptions env opts param).1 k = some .vNull := by
      rcases removeInvalidOptions_shape env opts param with hw | hw
      · rw [hw]
        exact Or.inl dropped
      · rw [hw]
        exact getField_guard_dropped opts param k v hnd h hv
    refine ⟨hIcon, ?_, hRem, ?_⟩
    · rcases hIcon with hh | hh <;> rw [hh, h] <;> simp [hvnull.symm]
    · rcases hRem with hh | hh <;> rw [hh, h] <;> simp [hvnull.symm]
  · intro hs hW
    have hrt : roundTripObj opts = opts := roundTripObj_serial opts hs
    constructor
    · simp [maybeNoIconOption, hW, hrt]
    · simp [removeInvalidOptions, hW, hrt]

/-- C10 witness: part (a) at a configuration with an `undefined` field
(for an off-Windows host), part (b) at a serializable configuration on
a Windows host. -/
theorem c10_witness :
    ((getField (maybeNoIconOption envNoWine [("foo", .vUndefined), ("platform", .vStr "win32")]).1 "foo" = none ∨
      getField (maybeNoIconOption envNoWine [("foo", .vUndefined), ("platform", .vStr "win32")]).1 "foo" = some .vNull) ∧
      getField (maybeNoIconOption envNoWine [("foo", .vUndefined), ("platform", .vStr "win32")]).1 "foo" ≠
        getField [("foo", .vUndefined), ("platform", .vStr "win32")] "foo" ∧
      (getField (removeInvalidOptions envNoWine [("foo", .vUndefined), ("platform", .vStr "win32")] "appCopyright").1 "foo" = none ∨
        getField (removeInvalidOptions envNoWine [("foo", .vUndefined), ("platform", .vStr "win32")] "appCopyright").1 "foo" = some .vNull) ∧
      getField (removeInvalidOptions envNoWine [("foo", .vUndefined), ("platform", .vStr "win32")] "appCopyright").1 "foo" ≠
        getField [("foo", .vUndefined), ("platform", .vStr "win32")] "foo") ∧
    ((maybeNoIconOption ⟨true, true⟩ win32Cfg).1 = win32Cfg ∧
      (removeInvalidOptions ⟨true, true⟩ win32Cfg "appCopyright").1 = win32Cfg) :=
  ⟨(c10_guards_json_round_trip envNoWine
      [("foo", .vUndefined), ("platform", .vStr "win32")] "appCopyright" "foo"
      .vUndefined).1 (by decide) (by decide) (by decide),
   (c10_guards_json_round_trip ⟨true, true⟩ win32Cfg "appCopyright" "foo"
      .vUndefined).2 (by decide) (by decide)⟩

/-- A win32 configuration carrying an icon, used as a store cell. -/
def iconCfg : JObj := [("icon", .vStr "icon.png"), ("platform", .vStr "win32")]

/-- C2: the capability guards never mutate the caller's configuration
object: over the store model, `maybeNoIconOptionS` and
`removeInvalidOptionsS` leave the cell of the input reference exactly
as it was (so every field, in particular `icon`, keeps its value) and
return a distinct, freshly allocated reference. -/
theorem c2_guards_do_not_mutate_input (env : Env) (st : Store) (r : Nat)
    (param : String) (h : r < st.length) :
    ((maybeNoIconOptionS env st r).1.getD r [] = st.getD r [] ∧
      (maybeNoIconOptionS env st r).2.1 ≠ r) ∧
    ((removeInvalidOptionsS env st r param).1.getD r [] = st.getD r [] ∧
      (removeInvalidOptionsS env st r param).2.1 ≠ r) ∧
    (∀ f, getFieldD ((maybeNoIconOptionS env st r).1.getD r []) f =
      getFieldD (st.getD r []) f) ∧
    (∀ f, getFieldD ((removeInvalidOptionsS env st r param).1.getD r []) f =
      getFieldD (st.getD r []) f) := by
  have hne : st.length ≠ r := by omega
  have happ : ∀ x : JObj, (st ++ [x]).getD r [] = st.getD r [] := fun x =>
    List.getD_append st [x] [] r h
  have hset : ∀ x y : JObj,
      ((st ++ [x]).set st.length y).getD r [] = st.getD r [] := by
    intro x y
    rw [List.getD_eq_getElem?_getD, List.getElem?_set_ne hne,
      ← List.getD_eq_getElem?_getD]
    exact happ x
  have hIcon : (maybeNoIconOptionS env st r).1.getD r [] = st.getD r [] ∧
      (maybeNoIconOptionS env st r).2.1 = st.length := by
    simp only [maybeNoIconOptionS]
    split <;> (try split) <;>
      first
        | exact ⟨hset _ _, rfl⟩
        | exact ⟨happ _, rfl⟩
  have hRem : (removeInvalidOptionsS env st r param).1.getD r [] = st.getD r [] ∧
      (removeInvalidOptionsS env st r param).2.1 = st.length := by
    simp only [removeInvalidOptionsS]
    split <;> (try split) <;>
      first
        | exact ⟨hset _ _, rfl⟩
        | exact ⟨happ _, rfl⟩
  refine ⟨⟨hIcon.1, ?_⟩, ⟨hRem.1, ?_⟩, fun f => by rw [hIcon.1],
    fun f => by rw [hRem.1]⟩
  · rw [hIcon.2]; exact hne
  · rw [hRem.2]; exact hne

/-- C2 witness: the no-mutation theorem at a one-cell store holding a
win32 configuration with an icon. -/
theorem c2_witness :
    0 < ([iconCfg] : Store).length ∧
    (maybeNoIconOptionS envNoWine [iconCfg] 0).1.getD 0 [] = ([iconCfg] : Store).getD 0 [] ∧
    (maybeNoIconOptionS envNoWine [iconCfg] 0).2.1 ≠ 0 ∧
    (removeInvalidOptionsS envNoWine [iconCfg] 0 "appCopyright").1.getD 0 [] = ([iconCfg] : Store).getD 0 [] ∧
    (removeInvalidOptionsS envNoWine [iconCfg] 0 "appCopyright").2.1 ≠ 0 ∧
    getFieldD ((maybeNoIconOptionS envNoWine [iconCfg] 0).1.getD 0 []) "icon" =
      getFieldD (([iconCfg] : Store).getD 0 []) "icon" :=
  ⟨by decide,
   (c2_guards_do_not_mutate_input envNoWine [iconCfg] 0 "appCopyright" (by decide)).1.1,
   (c2_guards_do_not_mutate_input envNoWine [iconCfg] 0 "appCopyright" (by decide)).1.2,
   (c2_guards_do_not_mutate_input envNoWine [iconCfg] 0 "appCopyright" (by decide)).2.1.1,
   (c2_guards_do_not_mutate_input envNoWine [iconCfg] 0 "appCopyright" (by decide)).2.1.2,
   (c2_guards_do_not_mutate_input envNoWine [iconCfg] 0 "appCopyright" (by decide)).2.2.1 "icon"⟩

/-! ## Claim C4: the App Arg Selector -/

/-- Reading a key from an object built by tabulating a key list. -/
theorem getField_tabulate (ks : List String) (f : String → JValue) (k : String) :
    getField (ks.map (fun k' => (k', f k'))) k =
      if k ∈ ks then some (f k) else none := by
  induction ks with
  | nil => simp [getField]
  | cons k0 rest ih =>
    by_cases h : k0 = k
    · subst h
      simp [getField]
    · simp [getField, h, ih, Ne.symm h]

/-- C4: `selectAppArgs` is total (any association-list configuration,
fields present or not, yields a snapshot — totality is inherent in the
embedding, since a missing property reads as `undefined` and no other
operation can fail), its keys are exactly the allow-list, every
allow-listed field is copied by value from the input, fields outside
the allow-list never appear, and it is idempotent. -/
theorem c4_selectAppArgs_total_idempotent (options : JObj) :
    (selectAppArgs options).map Prod.fst = appArgFields ∧
    (∀ k, k ∈ appArgFields →
      getFieldD (selectAppArgs options) k = getFieldD options k) ∧
    (∀ k, k ∉ appArgFields → getField (selectAppArgs options) k = none) ∧
    selectAppArgs (selectAppArgs options) = selectAppArgs options := by
  have hkeys : (selectAppArgs options).map Prod.fst = appArgFields := by
    rw [selectAppArgs, List.map_map]
    exact List.map_id appArgFields
  have hcopy : ∀ k, k ∈ appArgFields →
      getFieldD (selectAppArgs options) k = getFieldD options k := by
    intro k hk
    rw [getFieldD, selectAppArgs, getField_tabulate, if_pos hk]
    rfl
  refine ⟨hkeys, hcopy, ?_, ?_⟩
  · intro k hk
    rw [selectAppArgs, getField_tabulate, if_neg hk]
  · conv_lhs => rw [selectAppArgs]
    conv_rhs => rw [selectAppArgs]
    exact List.map_congr_left (fun k hk => by rw [hcopy k hk])

/-- C4 witness: the selector at the empty configuration: keys are the
allow-list, the absent `name` field is copied as `undefined`, an
unlisted key does not appear, and reapplication is the identity. -/
theorem c4_witness :
    (selectAppArgs []).map Prod.fst = appArgFields ∧
    getFieldD (selectAppArgs []) "name" = getFieldD [] "name" ∧
    getField (selectAppArgs []) "inject" = none ∧
    selectAppArgs (selectAppArgs []) = selectAppArgs [] :=
  ⟨(c4_selectAppArgs_total_idempotent []).1,
   (c4_selectAppArgs_total_idempotent []).2.1 "name" (by decide),
   (c4_selectAppArgs_total_idempotent []).2.2.1 "inject" (by decide),
   (c4_selectAppArgs_total_idempotent []).2.2.2⟩

/-! ## Claim C6: missing injection assets in the staging stage -/

/-- A filesystem on which nothing exists and every copy succeeds. -/
def fsNothingExists : StageFS := ⟨fun _ => false, none, fun _ => none⟩

/-- A configuration injecting a single script. -/
def injectCfg : JObj := [("inject", .vArr [.vStr "inject.js"])]

/-- C6, counterexample: with a configured injection file that
`existsSync` reports missing (and a successful tree copy), the
injection promise does reject with the file-not-found error, yet
`buildApp` completes without an error — the stage does not abort, so
the claim that a missing injection asset is fatal is false. -/
theorem c6_counterexample :
    maybeCopyScripts fsNothingExists (injectList injectCfg) =
      .error injectionNotFoundMsg ∧
    (buildAppRun fsNothingExists injectCfg).1 = none :=
  ⟨rfl, rfl⟩

/-- C6, amended: a configured injection asset missing on disk makes
`maybeCopyScripts` fail with the file-not-found error, but `buildApp`
catches that failure, logs it as a warning, and completes with no
error; only a failure of the initial full-tree copy is reported as an
error through `buildApp`'s callback. -/
theorem c6_missing_injection_not_fatal (fs : StageFS) (options : JObj)
    (l : List String) :
    (injectList options = some l →
      (∃ p ∈ l, fs.existsOnDisk p = false) →
      fs.treeCopyErr = none →
      maybeCopyScripts fs (injectList options) = .error injectionNotFoundMsg ∧
      (buildAppRun fs options).1 = none ∧
      BEvent.warnLogged injectionNotFoundMsg ∈ (buildAppRun fs options).2) ∧
    (∀ e, fs.treeCopyErr = some e →
      (buildAppRun fs options).1 =
        some ("Error Copying temporary directory: " ++ e)) := by
  constructor
  · intro hinj hmiss htree
    have hany : l.any (fun src => !fs.existsOnDisk src) = true := by
      rw [List.any_eq_true]
      obtain ⟨p, hp, hf⟩ := hmiss
      exact ⟨p, hp, by rw [hf]; rfl⟩
    have hmcs : maybeCopyScripts fs (injectList options) =
        .error injectionNotFoundMsg := by
      rw [hinj]
      simp only [maybeCopyScripts]
      rw [if_pos hany]
    refine ⟨hmcs, ?_, ?_⟩
    · simp [buildAppRun, htree, hmcs]
    · simp [buildAppRun, htree, hmcs]
  · intro e htree
    simp [buildAppRun, htree]

/-- C6 witness: the amended theorem at the concrete inputs of the
counterexample, plus the tree-copy-failure conclusion at a filesystem
whose tree copy fails. -/
theorem c6_witness :
    (maybeCopyScripts fsNothingExists (injectList injectCfg) =
        .error injectionNotFoundMsg ∧
      (buildAppRun fsNothingExists injectCfg).1 = none ∧
      BEvent.warnLogged injectionNotFoundMsg ∈
        (buildAppRun fsNothingExists injectCfg).2) ∧
    (buildAppRun ⟨fun _ => true, some "EACCES", fun _ => none⟩ injectCfg).1 =
      some ("Error Copying temporary directory: " ++ "EACCES") :=
  ⟨(c6_missing_injection_not_fatal fsNothingExists injectCfg ["inject.js"]).1
      (by decide) ⟨"inject.js", by decide, by decide⟩ rfl,
   (c6_missing_injection_not_fatal ⟨fun _ => true, some "EACCES", fun _ => none⟩
      injectCfg ["inject.js"]).2 "EACCES" rfl⟩

/-! ## Claims C5, C7, C9: the buildMain pipeline -/

/-- Externals for a run whose packaging engine resolves with an empty
path list and whose other stages succeed. -/
def extEmptyPack : Externals :=
  ⟨envNoWine, "/tmp/staging", .ok [("name", .vStr "app")], none, none,
    fun o => o, fun _ => .ok [], none⟩

/-- C5, counterexample: when the engine returns an empty list the final
callback's bundle-path argument is `undefined` (stage 5 ends in a bare
`cb()`), not `null` as claimed — the run is otherwise as the claim
says: no error and no `maybeCopyIcons` call. -/
theorem c5_counterexample :
    ¬ ((buildMainRun extEmptyPack []).appPath = JValue.vNull ∧
       (buildMainRun extEmptyPack []).error = JValue.vUndefined ∧
       Event.callCopyIcons ∉ (buildMainRun extEmptyPack []).events) := by
  intro hcl
  have h := hcl.1
  simp [buildMainRun, buildMainRun.buildMainAfterCopy, extEmptyPack,
    getAppPath] at h

/-- C5, amended: when the packaging engine resolves with an empty list
of produced paths (and the earlier stages succeed), `buildMain`
completes with no error and with `undefined` — not `null` — as its
bundle path, and `maybeCopyIcons` is never invoked in that run. -/
theorem c5_empty_result_soft_noop (ext : Externals) (opts o1 : JObj)
    (h1 : ext.optionsFactoryRes = .ok o1) (h2 : ext.buildAppErr = none)
    (h3 : ∀ o, ext.packagerRes o = .ok []) :
    (buildMainRun ext opts).error = .vUndefined ∧
    (buildMainRun ext opts).appPath = .vUndefined ∧
    Event.callCopyIcons ∉ (buildMainRun ext opts).events := by
  simp [buildMainRun, buildMainRun.buildMainAfterCopy, h1, h2, h3,
    getAppPath, Event.callCopyIcons]

/-- C5 witness: the amended theorem at `extEmptyPack`. -/
theorem c5_witness :
    (buildMainRun extEmptyPack []).error = .vUndefined ∧
    (buildMainRun extEmptyPack []).appPath = .vUndefined ∧
    Event.callCopyIcons ∉ (buildMainRun extEmptyPack []).events :=
  c5_empty_result_soft_noop extEmptyPack [] [("name", .vStr "app")] rfl rfl
    (fun _ => rfl)

/-- Externals for a run in which only the final icon copy fails: a
linux target with an icon, one produced path, a failing `ncp` icon
copy. -/
def extIconCopyFails : Externals :=
  ⟨envNoWine, "/tmp/staging",
    .ok [("platform", .vStr "linux"), ("icon", .vStr "icon.png")], none,
    none, fun o => o, fun _ => .ok ["/bundle/App"], some (.vStr "ECOPY")⟩

/-- Externals for a run in which only the icon-build service fails. -/
def extIconBuildFails : Externals :=
  ⟨envNoWine, "/tmp/staging",
    .ok [("platform", .vStr "linux"), ("icon", .vStr "icon.png")], none,
    some (.vStr "no icon produced"), fun o => o,
    fun _ => .ok ["/bundle/App"], none⟩

/-- C7, counterexample: in a run where only the final icon copy fails,
`buildMain` hands the copy error to its callback (together with the
produced path), so the pipeline does not report success as claimed. -/
theorem c7_counterexample :
    (buildMainRun extIconCopyFails []).appPath = .vStr "/bundle/App" ∧
    ¬ ((buildMainRun extIconCopyFails []).error = JValue.vUndefined) := by
  constructor
  · rfl
  · intro h
    simp [buildMainRun, buildMainRun.buildMainAfterCopy, extIconCopyFails,
      getAppPath, getFieldD, getField, jsTruthy] at h

/-- C7, amended: failures of the icon-build stage degrade gracefully —
its error is discarded (`cb(null, optionsWithIcon)`) and, when the rest
of the run succeeds, `buildMain` reports success with the produced
path.  A failure of the final icon copy, however, does not report
success: the copy error is passed to the final callback, together with
the produced bundle path (the bundle is kept, merely lacking its
icon). -/
theorem c7_icon_failure_propagation (ext : Externals) (opts o1 : JObj)
    (p : String) (ie : JValue)
    (h1 : ext.optionsFactoryRes = .ok o1) (h2 : ext.buildAppErr = none)
    (h3 : ∀ o, ext.packagerRes o = .ok [p]) (hp : p ≠ "") :
    (ext.iconBuildErr = some ie → ext.copyIconErr = none →
      (buildMainRun ext opts).error = .vUndefined ∧
      (buildMainRun ext opts).appPath = .vStr p) ∧
    (∀ ce, ext.copyIconErr = some ce →
      jsTruthy (getFieldD (ext.iconBuildOpts (setField o1 "dir" (.vStr ext.tmpPath))) "icon") = true →
      (getFieldD (ext.iconBuildOpts (setField o1 "dir" (.vStr ext.tmpPath))) "platform" == JValue.vStr "darwin") = false →
      (getFieldD (ext.iconBuildOpts (setField o1 "dir" (.vStr ext.tmpPath))) "platform" == JValue.vStr "mas") = false →
      (buildMainRun ext opts).error = ce ∧
      (buildMainRun ext opts).appPath = .vStr p) := by
  constructor
  · intro _ hcopy
    simp only [buildMainRun, buildMainRun.buildMainAfterCopy, h1, h2, h3,
      getAppPath]
    rw [if_neg (by simpa using hp)]
    by_cases hicon : jsTruthy (getFieldD (ext.iconBuildOpts (setField o1 "dir" (.vStr ext.tmpPath))) "icon") = true
    · rw [hicon]
      by_cases hdar : (getFieldD (ext.iconBuildOpts (setField o1 "dir" (.vStr ext.tmpPath))) "platform" == JValue.vStr "darwin") = true
      · simp [hdar]
      · simp only [Bool.not_eq_true] at hdar
        rw [hdar]
        by_cases hmas : (getFieldD (ext.iconBuildOpts (setField o1 "dir" (.vStr ext.tmpPath))) "platform" == JValue.vStr "mas") = true
        · simp [hmas]
        · simp only [Bool.not_eq_true] at hmas
          rw [hmas]
          simp [hcopy]
    · simp only [Bool.not_eq_true] at hicon
      simp [hicon]
  · intro ce hce hicon hdar hmas
    simp only [buildMainRun, buildMainRun.buildMainAfterCopy, h1, h2, h3,
      getAppPath]
    rw [if_neg (by simpa using hp)]
    rw [hicon, hdar, hmas]
    simp [hce]

/-- C7 witness: graceful icon-build failure at `extIconBuildFails`,
error propagation of the final icon copy at `extIconCopyFails`. -/
theorem c7_witness :
    ((buildMainRun extIconBuildFails []).error = .vUndefined ∧
      (buildMainRun extIconBuildFails []).appPath = .vStr "/bundle/App") ∧
    ((buildMainRun extIconCopyFails []).error = .vStr "ECOPY" ∧
      (buildMainRun extIconCopyFails []).appPath = .vStr "/bundle/App") :=
  ⟨(c7_icon_failure_propagation extIconBuildFails []
      [("platform", .vStr "linux"), ("icon", .vStr "icon.png")] "/bundle/App"
      (.vStr "no icon produced") rfl rfl (fun _ => rfl) (by decide)).1
      rfl rfl,
   (c7_icon_failure_propagation extIconCopyFails []
      [("platform", .vStr "linux"), ("icon", .vStr "icon.png")] "/bundle/App"
      (.vStr "no icon produced") rfl rfl (fun _ => rfl) (by decide)).2
      (.vStr "ECOPY") rfl (by decide) (by decide) (by decide)⟩

/-- Externals for a run whose packaging engine rejects. -/
def extPackagerRejects : Externals :=
  ⟨envNoWine, "/tmp/staging", .ok [("name", .vStr "app")], none, none,
    fun o => o, fun _ => .error (.vStr "packager blew up"), none⟩

/-- C9: when the packaging engine's promise rejects, `buildMain`
invokes its final callback with the error and — because stage 4 passes
`opts` as an extra waterfall argument on the error path — with the
pre-sanitization options object bound to the `appPath` parameter: the
caller's second argument is that configuration object, not a bundle
path string, `null`, or `undefined`. -/
theorem c9_packager_rejection_passes_options (ext : Externals)
    (opts o1 : JObj) (e : JValue)
    (h1 : ext.optionsFactoryRes = .ok o1) (h2 : ext.buildAppErr = none)
    (h3 : ∀ o, ext.packagerRes o = .error e) :
    (buildMainRun ext opts).error = e ∧
    (buildMainRun ext opts).appPath =
      .vObj (ext.iconBuildOpts (setField o1 "dir" (.vStr ext.tmpPath))) ∧
    (buildMainRun ext opts).appPath ≠ .vNull ∧
    (buildMainRun ext opts).appPath ≠ .vUndefined ∧
    (∀ s, (buildMainRun ext opts).appPath ≠ .vStr s) := by
  simp [buildMainRun, buildMainRun.buildMainAfterCopy, h1, h2, h3]

/-- C9 witness: the rejection theorem at `extPackagerRejects`. -/
theorem c9_witness :
    (buildMainRun extPackagerRejects []).error = .vStr "packager blew up" ∧
    (buildMainRun extPackagerRejects []).appPath =
      .vObj (extPackagerRejects.iconBuildOpts
        (setField [("name", .vStr "app")] "dir"
          (.vStr extPackagerRejects.tmpPath))) ∧
    (buildMainRun extPackagerRejects []).appPath ≠ .vNull ∧
    (buildMainRun extPackagerRejects []).appPath ≠ .vUndefined ∧
    (∀ s, (buildMainRun extPackagerRejects []).appPath ≠ .vStr s) :=
  c9_packager_rejection_passes_options extPackagerRejects []
    [("name", .vStr "app")] (.vStr "packager blew up") rfl rfl (fun _ => rfl)

/-! ## Claim C8: progress ticks -/

/-- The tick bookkeeping of a run result depends only on its event
trace, not on the callback values. -/
theorem run_ticks_of_events (evs : List Event) (err path : JValue)
    (h : tickLabels evs = stageNames.take 5)
    (h2 : ticksBeforeWork evs [] = true) :
    tickLabels (RunResult.mk evs err path).events = stageNames.take 5 ∧
    ticksBeforeWork (RunResult.mk evs err path).events [] = true :=
  ⟨h, h2⟩

/-- Tick bookkeeping for stages 3 to 5 of a run that passed staging. -/
theorem c8_afterCopy_aux (ext : Externals) (o1 : JObj) :
    tickLabels (buildMainRun.buildMainAfterCopy ext
      [.tick "inferring", .callOptionsFactory, .tick "copying", .callBuildApp]
      o1).events =
      stageNames.take (stagesStarted.stagesAfterCopy ext o1) ∧
    ticksBeforeWork (buildMainRun.buildMainAfterCopy ext
      [.tick "inferring", .callOptionsFactory, .tick "copying", .callBuildApp]
      o1).events [] = true := by
  cases h3 : ext.packagerRes
      (sanitizeForPackager ext.env
        (ext.iconBuildOpts (setField o1 "dir" (.vStr ext.tmpPath)))).1 with
  | error e =>
    simp only [buildMainRun.buildMainAfterCopy, stagesStarted.stagesAfterCopy, h3]
    decide
  | ok arr =>
    cases arr with
    | nil =>
      simp only [buildMainRun.buildMainAfterCopy, stagesStarted.stagesAfterCopy,
        h3, getAppPath]
      decide
    | cons p rest =>
      simp only [buildMainRun.buildMainAfterCopy, stagesStarted.stagesAfterCopy,
        h3, getAppPath]
      by_cases hp : p = ""
      · rw [if_pos hp]
        decide
      · rw [if_neg hp]
        split
        · exact run_ticks_of_events _ _ _ (by decide) (by decide)
        · split
          · exact run_ticks_of_events _ _ _ (by decide) (by decide)
          · split <;> exact run_ticks_of_events _ _ _ (by decide) (by decide)

/-- C8: in every run of `buildMain`, the progress ticks observed are
exactly the first `stagesStarted` stage names, once each, in the order
inferring, copying, icons, packaging, finalizing — ticks of stages that
never start are not emitted — and every tick precedes all working steps
of its stage. -/
theorem c8_progress_ticks_in_order (ext : Externals) (opts : JObj) :
    tickLabels (buildMainRun ext opts).events =
      stageNames.take (stagesStarted ext) ∧
    ticksBeforeWork (buildMainRun ext opts).events [] = true := by
  cases h1 : ext.optionsFactoryRes with
  | error e =>
    simp only [buildMainRun, stagesStarted, h1]
    decide
  | ok o1 =>
    cases h2 : ext.buildAppErr with
    | none =>
      simp only [buildMainRun, stagesStarted, h1, h2]
      exact c8_afterCopy_aux ext o1
    | some berr =>
      by_cases hb : berr = ""
      · simp only [buildMainRun, stagesStarted, h1, h2, if_pos hb]
        exact c8_afterCopy_aux ext o1
      · simp only [buildMainRun, stagesStarted, h1, h2, if_neg hb]
        decide

/-! ## Claim C3: the Name Disambiguator -/

theorem toNat_ofNat_of_lt (n : Nat) (h : n < 55296) :
    (Char.ofNat n).toNat = n := by
  rw [Char.ofNat, dif_pos (Or.inl h)]
  rfl

/-- Unfolding of `wordsOf` at a singleton. -/
theorem wordsOf_singleton (c : Char) :
    wordsOf [c] = if !isWordChar c then [] else [[c]] := rfl

/-- Unfolding of `wordsOf` at two or more characters. -/
theorem wordsOf_cons_cons (c r : Char) (rs : List Char) :
    wordsOf (c :: r :: rs) =
      if !isWordChar c then wordsOf (r :: rs)
      else if isWordChar r && sameKind c r then
        match wordsOf (r :: rs) with
        | w :: ws' => (c :: w) :: ws'
        | [] => [[c]]
      else [c] :: wordsOf (r :: rs) := rfl

/-- Every character of every word produced by `wordsOf` is a word
character. -/
theorem wordsOf_mem_wordChar :
    ∀ cs : List Char, ∀ w ∈ wordsOf cs, ∀ c ∈ w, isWordChar c = true := by
  intro cs
  induction cs with
  | nil => simp [wordsOf]
  | cons c rest ih =>
    intro w hw cc hcc
    cases rest with
    | nil =>
      rw [wordsOf_singleton] at hw
      cases hc : isWordChar c with
      | false => simp [hc] at hw
      | true =>
        simp [hc] at hw
        subst hw
        simp at hcc
        subst hcc
        exact hc
    | cons r rs =>
      rw [wordsOf_cons_cons] at hw
      cases hc : isWordChar c with
      | false =>
        simp [hc] at hw
        exact ih w hw cc hcc
      | true =>
        simp only [hc, Bool.not_true, Bool.false_eq_true, if_false] at hw
        cases hr : (isWordChar r && sameKind c r) with
        | false =>
          rw [hr] at hw
          simp only [Bool.false_eq_true, if_false] at hw
          rcases List.mem_cons.mp hw with hww | hww
          · subst hww
            simp at hcc
            subst hcc
            exact hc
          · exact ih w hww cc hcc
        | true =>
          rw [hr] at hw
          simp only [if_true] at hw
          cases hws : wordsOf (r :: rs) with
          | nil =>
            rw [hws] at hw
            simp at hw
            subst hw
            simp at hcc
            subst hcc
            exact hc
          | cons w0 ws' =>
            rw [hws] at hw
            simp only [] at hw
            rcases List.mem_cons.mp hw with hww | hww
            · subst hww
              rcases List.mem_cons.mp hcc with hcc1 | hcc1
              · subst hcc1
                exact hc
              · exact ih w0 (by rw [hws]; exact List.mem_cons_self w0 ws') cc hcc1
            · exact ih w (by rw [hws]; exact List.mem_cons_of_mem w0 hww) cc hcc

/-- Splitting into words produces no empty word. -/
theorem wordsOf_words_ne_nil :
    ∀ cs : List Char, ∀ w ∈ wordsOf cs, w ≠ [] := by
  intro cs
  induction cs with
  | nil => simp [wordsOf]
  | cons c rest ih =>
    intro w hw
    cases rest with
    | nil =>
      rw [wordsOf_singleton] at hw
      cases hc : isWordChar c with
      | false => simp [hc] at hw
      | true =>
        simp [hc] at hw
        subst hw
        simp
    | cons r rs =>
      rw [wordsOf_cons_cons] at hw
      cases hc : isWordChar c with
      | false =>
        simp [hc] at hw
        exact ih w hw
      | true =>
        simp only [hc, Bool.not_true, Bool.false_eq_true, if_false] at hw
        cases hr : (isWordChar r && sameKind c r) with
        | false =>
          rw [hr] at hw
          simp only [Bool.false_eq_true, if_false] at hw
          rcases List.mem_cons.mp hw with hww | hww
          · subst hww
            simp
          · exact ih w hww
        | true =>
          rw [hr] at hw
          simp only [if_true] at hw
          cases hws : wordsOf (r :: rs) with
          | nil =>
            rw [hws] at hw
            simp at hw
            subst hw
            simp
          | cons w0 ws' =>
            rw [hws] at hw
            rcases List.mem_cons.mp hw with hww | hww
            · subst hww
              simp
            · exact ih w (by rw [hws]; exact List.mem_cons_of_mem w0 hww)

/-- A character list containing a word character has at least one
word. -/
theorem wordsOf_ne_nil :
    ∀ cs : List Char, (∃ c ∈ cs, isWordChar c = true) → wordsOf cs ≠ [] := by
  intro cs
  induction cs with
  | nil => simp
  | cons c rest ih =>
    intro hex
    cases rest with
    | nil =>
      rw [wordsOf_singleton]
      obtain ⟨x, hx, hwx⟩ := hex
      simp at hx
      subst hx
      simp [hwx]
    | cons r rs =>
      rw [wordsOf_cons_cons]
      cases hc : isWordChar c with
      | true =>
        simp only [Bool.not_true, Bool.false_eq_true, if_false]
        cases hr : (isWordChar r && sameKind c r) with
        | false =>
          simp
        | true =>
          simp only [if_true]
          cases hws : wordsOf (r :: rs) <;> simp
      | false =>
        simp only [Bool.not_false, if_true]
        refine ih ?_
        obtain ⟨x, hx, hwx⟩ := hex
        rcases List.mem_cons.mp hx with h1 | h1
        · subst h1
          rw [hwx] at hc
          cases hc
        · exact ⟨x, h1, hwx⟩

/-- Unfolding of `joinHyphen` at a singleton. -/
theorem joinHyphen_single (w : List Char) : joinHyphen [w] = w := rfl

/-- Unfolding of `joinHyphen` at two or more words. -/
theorem joinHyphen_pair (w w2 : List Char) (ws2 : List (List Char)) :
    joinHyphen (w :: w2 :: ws2) = w ++ '-' :: joinHyphen (w2 :: ws2) := rfl

/-- Characters of hyphen-joined words: word characters or hyphens. -/
theorem joinHyphen_chars :
    ∀ ws : List (List Char), (∀ w ∈ ws, ∀ c ∈ w, isWordChar c = true) →
      ∀ c ∈ joinHyphen ws, isKebabChar c = true := by
  intro ws
  induction ws with
  | nil => simp [joinHyphen]
  | cons w ws ih =>
    intro hall c hc
    cases ws with
    | nil =>
      rw [joinHyphen_single] at hc
      have := hall w (List.mem_cons_self _ _) c hc
      rw [isKebabChar, this]
      rfl
    | cons w2 ws2 =>
      rw [joinHyphen_pair] at hc
      rcases List.mem_append.mp hc with h1 | h1
      · have := hall w (List.mem_cons_self _ _) c h1
        rw [isKebabChar, this]
        rfl
      · rcases List.mem_cons.mp h1 with h2 | h2
        · subst h2; decide
        · exact ih (fun x hx => hall x (List.mem_cons_of_mem _ hx)) c h2

/-- Hyphen-joining a nonempty list of nonempty words is nonempty. -/
theorem joinHyphen_ne_nil :
    ∀ ws : List (List Char), ws ≠ [] → (∀ w ∈ ws, w ≠ []) →
      joinHyphen ws ≠ [] := by
  intro ws
  cases ws with
  | nil => intro h; cases h rfl
  | cons w ws =>
    intro _ hall
    cases ws with
    | nil => exact hall w (List.mem_cons_self _ _)
    | cons w2 ws2 =>
      rw [joinHyphen_pair]
      intro hcon
      rcases List.append_eq_nil.mp hcon with ⟨-, h2⟩
      cases h2

/-- Every character of a kebab-cased string is in `[a-z0-9-]`. -/
theorem kebabCase_chars (s : String) :
    ∀ c ∈ (kebabCase s).data, isKebabChar c = true := by
  intro c hc
  rw [kebabCase] at hc
  exact joinHyphen_chars _ (wordsOf_mem_wordChar _) c hc

/-- A string containing a word character has a nonempty kebab-casing. -/
theorem kebabCase_ne_nil (s : String)
    (h : ∃ c ∈ s.data, isWordChar c = true) : (kebabCase s).data ≠ [] := by
  rw [kebabCase]
  have hapos : isWordChar (Char.ofNat 39) = false := by decide
  refine joinHyphen_ne_nil _ (wordsOf_ne_nil _ ?_) (wordsOf_words_ne_nil _)
  obtain ⟨c, hc, hw⟩ := h
  refine ⟨c, List.mem_filter.mpr ⟨hc, ?_⟩, hw⟩
  have hne : c ≠ Char.ofNat 39 := by
    intro hcon
    rw [hcon, hapos] at hw
    cases hw
  simp [hne]

/-- Lower-casing an ASCII alphanumeric character yields a word
character. -/
theorem toLowerChar_wordChar (c : Char) (h : isAsciiAlnum c = true) :
    isWordChar (if isUpperLetter c then Char.ofNat (c.toNat + 32) else c) = true := by
  rw [isAsciiAlnum, Bool.or_eq_true] at h
  by_cases hu : isUpperLetter c = true
  · rw [if_pos hu]
    simp only [isUpperLetter, Bool.and_eq_true, decide_eq_true_eq] at hu
    have hv : (Char.ofNat (c.toNat + 32)).toNat = c.toNat + 32 :=
      toNat_ofNat_of_lt _ (by omega)
    simp only [isWordChar, isLowerLetter, isDigitChar, hv, Bool.or_eq_true,
      Bool.and_eq_true, decide_eq_true_eq]
    omega
  · rw [if_neg hu]
    rcases h with h | h
    · exact h
    · rw [h] at hu; cases hu rfl

/-- A name containing an ASCII alphanumeric character still contains a
word character after lower-casing. -/
theorem jsToLowerCase_has_wordChar (s : String)
    (h : ∃ c ∈ s.data, isAsciiAlnum c = true) :
    ∃ c ∈ (jsToLowerCase s).data, isWordChar c = true := by
  obtain ⟨c, hc, ha⟩ := h
  exact ⟨_, List.mem_map_of_mem _ hc, toLowerChar_wordChar c ha⟩

/-- Hex-encoding bytes doubles the length. -/
theorem flatMap_byteHex_length (l : List Nat) :
    (l.flatMap byteHex).length = 2 * l.length := by
  induction l with
  | nil => rfl
  | cons b bs ih =>
    simp only [List.flatMap_cons, List.length_append, ih, byteHex,
      List.length_cons, List.length_nil]
    omega

/-- The digest always has sixteen bytes. -/
theorem digestBytes_length (m : List Nat) : (digestBytes m).length = 16 := by
  simp [digestBytes, wordLEBytes]

/-- Every digest byte is below 256. -/
theorem digestBytes_lt (m : List Nat) : ∀ b ∈ digestBytes m, b < 256 := by
  intro b hb
  simp only [digestBytes, wordLEBytes, List.mem_append, List.mem_cons,
    List.not_mem_nil, or_false] at hb
  omega

/-- The hex digest always has 32 characters. -/
theorem md5HexChars_length (m : List Nat) : (md5HexChars m).length = 32 := by
  rw [md5HexChars, flatMap_byteHex_length, digestBytes_length]

theorem hexDigitChar_isHex : ∀ n, n < 16 → isLowerHexChar (hexDigitChar n) = true := by
  decide

/-- Every character of the hex digest is a lower-case hex character. -/
theorem md5HexChars_hex (m : List Nat) :
    ∀ c ∈ md5HexChars m, isLowerHexChar c = true := by
  intro c hc
  rw [md5HexChars, List.mem_flatMap] at hc
  obtain ⟨b, hb, hcb⟩ := hc
  have hlt := digestBytes_lt m b hb
  rw [byteHex] at hcb
  rcases List.mem_cons.mp hcb with h1 | h1
  · subst h1
    exact hexDigitChar_isHex _ (by omega)
  · rcases List.mem_cons.mp h1 with h2 | h2
    · subst h2
      exact hexDigitChar_isHex _ (by omega)
    · cases h2

/-- C3: `normalizeAppName` is deterministic (it is a pure function of
its two arguments), and for every ASCII name containing at least one
alphanumeric character the derived name has the shape
`^[a-z0-9-]+-nativefier-[0-9a-f]\x7b6\x7d$`: the kebab-cased
lower-cased name, then `-nativefier-`, then the first six hex
characters of the MD5 digest of the URL.  The ASCII hypothesis
restricts the statement to the inputs on which the embedded
`jsToLowerCase`/`kebabCase` agree with the JavaScript originals; the
alphanumeric hypothesis is what "valid name" must at least mean, since
a name without alphanumerics (for example the empty string) kebab-cases
to the empty string and the shape's `[a-z0-9-]+` then has no match. -/
theorem c3_normalizeAppName_deterministic_shape (name url : String)
    (hascii : ∀ c ∈ name.data, c.toNat < 128)
    (halnum : ∃ c ∈ name.data, isAsciiAlnum c = true) :
    normalizeAppName name url = normalizeAppName name url ∧
    matchesNameShape (normalizeAppName name url) := by
  refine ⟨rfl, (kebabCase (jsToLowerCase name)).data,
    (md5HexChars (strBytes url)).take 6, ?_, ?_, ?_, ?_, ?_⟩
  · show (kebabCase (jsToLowerCase name) ++ "-nativefier-" ++
      String.mk ((md5HexChars (strBytes url)).take 6)).data = _
    rw [String.data_append, String.data_append]
  · exact kebabCase_ne_nil _ (jsToLowerCase_has_wordChar _ halnum)
  · exact kebabCase_chars _
  · rw [List.length_take, md5HexChars_length]
    decide
  · intro c hc
    exact md5HexChars_hex _ c (List.take_subset _ _ hc)

set_option maxRecDepth 10000 in
/-- Concrete end-to-end evaluation of the embedding: the derived name
of `("My App", "https://example.com")`, whose hash suffix `c984d0` is
the first six hex characters of the MD5 of the URL. -/
theorem normalizeAppName_example :
    normalizeAppName "My App" "https://example.com" =
      "my-app-nativefier-c984d0" := by
  decide

/-- C3 witness: the shape theorem at the configuration of the README
(`nativefier https://chats.google.com` with name `My App`). -/
theorem c3_witness :
    (∀ c ∈ ("My App" : String).data, c.toNat < 128) ∧
    (∃ c ∈ ("My App" : String).data, isAsciiAlnum c = true) ∧
    (normalizeAppName "My App" "https://chats.google.com" =
      normalizeAppName "My App" "https://chats.google.com" ∧
     matchesNameShape (normalizeAppName "My App" "https://chats.google.com")) :=
  ⟨by decide, by decide,
   c3_normalizeAppName_deterministic_shape "My App" "https://chats.google.com"
     (by decide) (by decide)⟩

end BuildSpec
